import Mathlib

/-!
Verification of the CaRMS ETL pipeline (src/src/carms/etl/assets.py and
src/src/carms/db/models.py) against its natural-language specification.

The pipeline is embedded shallowly:

* Python strings are Lean `String`s; the handful of Python string methods the
  code uses (`split`, `strip`, `replace`, `isdigit`, `int(...)`) are modelled
  over `List Char`, restricted to ASCII text (the source data is ASCII).
* pandas data frames appear in two guises: a generic column-named `Frame`
  (used by the transform assets, where column presence and order matter) and
  typed row lists (used by the loader, where the relational schema of
  models.py fixes the column types).
* The Postgres sink is a `Store` of four typed tables; inserts enforce the
  primary- and foreign-key constraints declared in models.py, and the single
  `engine.begin()` transaction of `load_to_postgres` is modelled by running
  the whole write phase as an `Except` computation whose failure leaves the
  store untouched (SQLAlchemy rolls the transaction back when the block
  raises).
* `json.loads` of the Python standard library is modelled by an executable
  recursive-descent JSON reader over the decoded file text.
-/

namespace Carms

/-! ## Python string primitives -/

/-- The ASCII whitespace characters removed by Python `str.strip()`. -/
def isPySpace (c : Char) : Bool :=
  c = ' ' || c = '\t' || c = '\n' || c = '\r' || c = '\x0b' || c = '\x0c'

/-- Python `str.strip()` on a character list. -/
def pyStripChars (l : List Char) : List Char :=
  ((l.dropWhile isPySpace).reverse.dropWhile isPySpace).reverse

/-- Python `str.strip()`. -/
def pyStrip (s : String) : String :=
  ⟨pyStripChars s.data⟩

/-- Python `str.split(sep)` for a one-character separator.
Like Python, the result is never empty and `"".split(sep) = [""]`. -/
def splitChar (sep : Char) : List Char → List (List Char)
  | [] => [[]]
  | x :: xs =>
    let r := splitChar sep xs
    if x = sep then [] :: r
    else
      match r with
      | [] => [[x]]
      | h :: t => (x :: h) :: t

/-- Python `str.isdigit()` for ASCII text: nonempty and all digits. -/
def pyIsDigit (l : List Char) : Bool :=
  !l.isEmpty && l.all Char.isDigit

/-- Python `int(s)` for a string of ASCII digits. -/
def pyInt (l : List Char) : Int :=
  Int.ofNat (l.foldl (fun a c => 10 * a + (c.toNat - '0'.toNat)) 0)

/-- `splitChar` never produces the empty list. -/
theorem splitChar_ne_nil (sep : Char) (l : List Char) : splitChar sep l ≠ [] := by
  cases l with
  | nil => simp [splitChar]
  | cons x xs =>
    simp only [splitChar]
    split
    · simp
    · split
      · simp
      · simp

/-- The first chunk of `splitChar` is the prefix before the first separator. -/
theorem splitChar_head (sep : Char) (l : List Char) :
    (splitChar sep l).head? = some (l.takeWhile (fun c => c ≠ sep)) := by
  induction l with
  | nil => simp [splitChar]
  | cons x xs ih =>
    simp only [splitChar, List.takeWhile]
    by_cases hx : x = sep
    · simp [hx]
    · simp only [if_neg hx]
      have hne := splitChar_ne_nil sep xs
      cases h : splitChar sep xs with
      | nil => exact absurd h hne
      | cons h0 t =>
        rw [h] at ih
        simp only [List.head?] at ih
        simp only [List.head?, Option.some.injEq] at ih ⊢
        simp [hx, decide_eq_true_eq, ih]

/-! ## Program id extraction (assets.py lines 84-93)

The source code, inside the record-level try/except:

    parts = source_url.split('?')[0].split('/')
    if parts[-1].isdigit():
        prog_id = int(parts[-1])
    elif parts[-2].isdigit():
        prog_id = int(parts[-2])
    else:
        continue

Negative indexing is modelled by matching on the reversed list; `parts[-2]`
on a one-element list raises IndexError, which the enclosing except catches,
skipping the record — hence the `none` for a singleton. -/

/-- The `parts[-1]` / `parts[-2]` selection of the source, with negative
indexing modelled on the reversed list. -/
def negIndexPick (parts : List (List Char)) : Option Int :=
  match parts.reverse with
  | [] => none
  | p1 :: rest =>
    if pyIsDigit p1 then some (pyInt p1)
    else
      match rest with
      | [] => none
      | p2 :: _ => if pyIsDigit p2 then some (pyInt p2) else none

def extractProgId (source_url : String) : Option Int :=
  negIndexPick (splitChar '/' ((splitChar '?' source_url.data).headD []))

/-- The selection in the words of the spec: the last path segment if it is
entirely numeric, else the second-to-last if that is numeric, else skip. -/
def specPick (segs : List (List Char)) : Option Int :=
  match segs.getLast? with
  | none => none
  | some lastSeg =>
    if pyIsDigit lastSeg then some (pyInt lastSeg)
    else
      match segs.dropLast.getLast? with
      | none => none
      | some s2 => if pyIsDigit s2 then some (pyInt s2) else none

/-- The spec, in its own words (section 4.5): strip any query string from the
URL, split the remaining path on `/`, then pick per `specPick`. -/
def specExtractId (url : String) : Option Int :=
  specPick (splitChar '/' ((splitChar '?' url.data).headD []))

theorem negIndexPick_eq_specPick (parts : List (List Char)) :
    negIndexPick parts = specPick parts := by
  rcases List.eq_nil_or_concat parts with h | ⟨L, b, h⟩
  · subst h
    simp [negIndexPick, specPick]
  · subst h
    simp only [negIndexPick, specPick, List.concat_eq_append, List.reverse_append,
      List.reverse_cons, List.reverse_nil, List.nil_append, List.cons_append,
      List.getLast?_concat, List.dropLast_concat]
    rcases List.eq_nil_or_concat L with hL | ⟨M, c, hL⟩
    · subst hL
      simp
    · subst hL
      simp only [List.concat_eq_append, List.getLast?_concat, List.reverse_append,
        List.reverse_cons, List.reverse_nil, List.nil_append, List.cons_append]

theorem extractProgId_eq_spec (u : String) : extractProgId u = specExtractId u :=
  negIndexPick_eq_specPick _

/-! ## JSON values

`json.loads` produces Python dicts/lists/strings/numbers.  Numbers keep their
lexeme (no claim inspects a numeric value), and objects keep their field list;
Python dict lookup with duplicate keys keeps the last binding, see
`pyDictGet`. -/

inductive PyJson where
  | null
  | bool (b : Bool)
  | num (lexeme : String)
  | str (s : String)
  | arr (elems : List PyJson)
  | obj (fields : List (String × PyJson))

/-- One escaped character of `json.dumps` output (ASCII input assumed). -/
def jsonEscapeChar (c : Char) : List Char :=
  if c = '"' then ['\\', '"']
  else if c = '\\' then ['\\', '\\']
  else if c = '\n' then ['\\', 'n']
  else if c = '\t' then ['\\', 't']
  else if c = '\r' then ['\\', 'r']
  else if c = '\x08' then ['\\', 'b']
  else if c = '\x0c' then ['\\', 'f']
  else [c]

/-- `json.dumps` of a string value. -/
def jsonDumpString (s : String) : String :=
  ⟨'"' :: ((s.data.map jsonEscapeChar).flatten ++ ['"'])⟩

mutual

/-- Python `json.dumps` with its default separators `", "` and `": "`. -/
def jsonDumps : PyJson → String
  | .null => "null"
  | .bool b => if b then "true" else "false"
  | .num lexeme => lexeme
  | .str s => jsonDumpString s
  | .arr [] => "[]"
  | .arr (x :: xs) => "[" ++ jsonDumps x ++ jsonDumpsRest xs ++ "]"
  | .obj [] => "\x7b\x7d"
  | .obj ((k, v) :: fs) =>
      "\x7b" ++ jsonDumpString k ++ ": " ++ jsonDumps v ++ jsonDumpsFieldsRest fs ++ "\x7d"

def jsonDumpsRest : List PyJson → String
  | [] => ""
  | x :: xs => ", " ++ jsonDumps x ++ jsonDumpsRest xs

def jsonDumpsFieldsRest : List (String × PyJson) → String
  | [] => ""
  | (k, v) :: fs => ", " ++ jsonDumpString k ++ ": " ++ jsonDumps v ++ jsonDumpsFieldsRest fs

end

/-- Python `dict.get(k, dflt)` on a dict built from a field list: the last
binding of a duplicated key wins, as in `json.loads`. -/
def pyDictGet (fields : List (String × PyJson)) (k : String) (dflt : PyJson) : PyJson :=
  match (fields.filter (fun f => f.1 = k)).getLast? with
  | some f => f.2
  | none => dflt

def asStr : PyJson → Option String
  | .str s => some s
  | _ => none

/-! ## A `json.loads` reader

An executable recursive-descent reader for the JSON text accepted by the
Python standard library (strict mode, plus the `NaN` / `Infinity` /
`-Infinity` extensions Python accepts by default).  Recursion is fuelled; the
fuel chosen in `jsonLoads` exceeds the input length, which bounds the
recursion depth of any parse. -/

/-- The JSON whitespace characters. -/
def isJsonWs (c : Char) : Bool :=
  c = ' ' || c = '\t' || c = '\n' || c = '\r'

def skipWs (s : List Char) : List Char :=
  s.dropWhile isJsonWs

def hexVal (c : Char) : Option Nat :=
  if '0' ≤ c ∧ c ≤ '9' then some (c.toNat - '0'.toNat)
  else if 'a' ≤ c ∧ c ≤ 'f' then some (c.toNat - 'a'.toNat + 10)
  else if 'A' ≤ c ∧ c ≤ 'F' then some (c.toNat - 'A'.toNat + 10)
  else none

def escDecode (c : Char) : Option Char :=
  if c = '"' then some '"'
  else if c = '\\' then some '\\'
  else if c = '/' then some '/'
  else if c = 'b' then some '\x08'
  else if c = 'f' then some '\x0c'
  else if c = 'n' then some '\n'
  else if c = 'r' then some '\r'
  else if c = 't' then some '\t'
  else none

/-- Body of a JSON string after the opening quote; returns the decoded
characters and the rest after the closing quote. -/
def readStringBody : Nat → List Char → Option (List Char × List Char)
  | 0, _ => none
  | _, [] => none
  | fuel + 1, c :: rest =>
    if c = '"' then some ([], rest)
    else if c = '\\' then
      match rest with
      | [] => none
      | 'u' :: h1 :: h2 :: h3 :: h4 :: rest2 =>
        match hexVal h1, hexVal h2, hexVal h3, hexVal h4 with
        | some a, some b, some c3, some d =>
          (readStringBody fuel rest2).map
            (fun p => (Char.ofNat (4096 * a + 256 * b + 16 * c3 + d) :: p.1, p.2))
        | _, _, _, _ => none
      | e :: rest2 =>
        match escDecode e with
        | some ec => (readStringBody fuel rest2).map (fun p => (ec :: p.1, p.2))
        | none => none
    else if c.toNat < 32 then none
    else (readStringBody fuel rest).map (fun p => (c :: p.1, p.2))

/-- A JSON number lexeme: `-? (0 | [1-9][0-9]*) (. [0-9]+)? ([eE][+-]?[0-9]+)?`. -/
def readNumber (s : List Char) : Option (List Char × List Char) :=
  let (sgn, s1) := match s with
    | '-' :: t => (['-'], t)
    | _ => ([], s)
  match s1 with
  | [] => none
  | c :: _ =>
    if !c.isDigit then none
    else
      let ds := s1.takeWhile Char.isDigit
      let r1 := s1.dropWhile Char.isDigit
      if c = '0' ∧ ds.length > 1 then none
      else
        let (fracPart, r2) := match r1 with
          | '.' :: t =>
            let fs := t.takeWhile Char.isDigit
            if fs.isEmpty then ([], r1) else ('.' :: fs, t.dropWhile Char.isDigit)
          | _ => ([], r1)
        if r2 ≠ r1 ∨ fracPart.isEmpty then
          match r1, fracPart with
          | '.' :: _, [] => none
          | _, _ =>
            let (expPart, r3) := match r2 with
              | e :: t =>
                if e = 'e' ∨ e = 'E' then
                  let (es, t2) := match t with
                    | '+' :: u => (['+'], u)
                    | '-' :: u => (['-'], u)
                    | _ => ([], t)
                  let xs := t2.takeWhile Char.isDigit
                  if xs.isEmpty then ([], r2) else (e :: (es ++ xs), t2.dropWhile Char.isDigit)
                else ([], r2)
              | [] => ([], r2)
            match r2, expPart with
            | e :: _, [] =>
              if e = 'e' ∨ e = 'E' then none
              else some (sgn ++ ds ++ fracPart ++ expPart, r3)
            | _, _ => some (sgn ++ ds ++ fracPart ++ expPart, r3)
        else none

mutual

/-- A JSON value; the input must already start at a non-whitespace position. -/
def readValue : Nat → List Char → Option (PyJson × List Char)
  | 0, _ => none
  | fuel + 1, s =>
    match s with
    | [] => none
    | c :: rest =>
      if c = '"' then
        (readStringBody (fuel + 1) rest).map (fun p => (.str ⟨p.1⟩, p.2))
      else if c = '[' then
        readArrayItems fuel (skipWs rest)
      else if c = '\x7b' then
        readObjectFields fuel (skipWs rest)
      else if c = 't' then
        if ['r', 'u', 'e'].isPrefixOf rest then some (.bool true, rest.drop 3) else none
      else if c = 'f' then
        if ['a', 'l', 's', 'e'].isPrefixOf rest then some (.bool false, rest.drop 4) else none
      else if c = 'n' then
        if ['u', 'l', 'l'].isPrefixOf rest then some (.null, rest.drop 3) else none
      else if c = 'N' then
        if ['a', 'N'].isPrefixOf rest then some (.num "NaN", rest.drop 2) else none
      else if c = 'I' then
        if ['n', 'f', 'i', 'n', 'i', 't', 'y'].isPrefixOf rest then
          some (.num "Infinity", rest.drop 7)
        else none
      else if c = '-' ∧ rest.head? = some 'I' then
        if ['I', 'n', 'f', 'i', 'n', 'i', 't', 'y'].isPrefixOf rest then
          some (.num "-Infinity", rest.drop 8)
        else none
      else
        (readNumber s).map (fun p => (.num ⟨p.1⟩, p.2))

/-- After `[` and whitespace: either `]` or the elements. -/
def readArrayItems : Nat → List Char → Option (PyJson × List Char)
  | 0, _ => none
  | fuel + 1, s =>
    match s with
    | ']' :: rest => some (.arr [], rest)
    | _ =>
      match readValue fuel s with
      | none => none
      | some (v, r1) =>
        match readArrayRest fuel (skipWs r1) with
        | none => none
        | some (vs, r2) => some (.arr (v :: vs), r2)

/-- After an array element and whitespace: `,` and more elements, or `]`. -/
def readArrayRest : Nat → List Char → Option (List PyJson × List Char)
  | 0, _ => none
  | fuel + 1, s =>
    match s with
    | ']' :: rest => some ([], rest)
    | ',' :: rest =>
      match readValue fuel (skipWs rest) with
      | none => none
      | some (v, r1) =>
        match readArrayRest fuel (skipWs r1) with
        | none => none
        | some (vs, r2) => some (v :: vs, r2)
    | _ => none

/-- After `\x7b` and whitespace: either `\x7d` or the fields. -/
def readObjectFields : Nat → List Char → Option (PyJson × List Char)
  | 0, _ => none
  | fuel + 1, s =>
    match s with
    | '\x7d' :: rest => some (.obj [], rest)
    | '"' :: rest =>
      match readStringBody (fuel + 1) rest with
      | none => none
      | some (k, r1) =>
        match skipWs r1 with
        | ':' :: r2 =>
          match readValue fuel (skipWs r2) with
          | none => none
          | some (v, r3) =>
            match readObjectRest fuel (skipWs r3) with
            | none => none
            | some (fs, r4) => some (.obj ((⟨k⟩, v) :: fs), r4)
        | _ => none
    | _ => none

/-- After a field and whitespace: `,` and more fields, or `\x7d`. -/
def readObjectRest : Nat → List Char → Option (List (String × PyJson) × List Char)
  | 0, _ => none
  | fuel + 1, s =>
    match s with
    | '\x7d' :: rest => some ([], rest)
    | ',' :: rest =>
      match skipWs rest with
      | '"' :: r1 =>
        match readStringBody (fuel + 1) r1 with
        | none => none
        | some (k, r2) =>
          match skipWs r2 with
          | ':' :: r3 =>
            match readValue fuel (skipWs r3) with
            | none => none
            | some (v, r4) =>
              match readObjectRest fuel (skipWs r4) with
              | none => none
              | some (fs, r5) => some ((⟨k⟩, v) :: fs, r5)
          | _ => none
      | _ => none
    | _ => none

end

/-- Python `json.loads`: parse one value, then reject trailing garbage.
`none` models a raised `JSONDecodeError`. -/
def jsonLoads (s : String) : Option PyJson :=
  match readValue (2 * s.data.length + 8) (skipWs s.data) with
  | some (v, rest) => if skipWs rest = [] then some v else none
  | none => none

/-! ## Description records (assets.py lines 57-112)

One parsed JSON record, after the `item.get("page_content", "")`,
`item.get("metadata", {})` and `metadata.get("source", "")` accesses of
lines 77-79.  Those accesses run outside the record-level try/except, so a
non-dict item or non-dict metadata value raises AttributeError and fails the
asset (see `itemOfJson`); a non-string `page_content` or `source` value only
raises later, inside the try, and merely skips the record — modelled by the
`Option` in the two fields. -/

structure DescItem where
  page_content : Option String
  source : Option String
  metadata : PyJson

/-- One row of the description frame: program_id, title, content, and
extra_data, the metadata object serialized by `json.dumps` (assets.py
line 101). -/
structure SectionRow where
  program_id : Int
  title : String
  content : String
  extra_data : String
deriving DecidableEq

/-- Title extraction (assets.py lines 96-97):

    lines = content.split('\n')
    title = lines[0].replace('#', '').strip() if lines else "Program Description"

`replace('#', '')` removes every `#` of the first line, and Python
`split` never returns an empty list, so the fallback arm is unreachable. -/
def titleOf (content : String) : String :=
  match splitChar '\n' content.data with
  | [] => "Program Description"
  | l0 :: _ => pyStrip ⟨l0.filter (fun c => c ≠ '#')⟩

/-- The body of the `for item in data` loop (assets.py lines 76-110): `none`
means the record was skipped by a `continue` or by the except around the
record. -/
def descRow (item : DescItem) : Option SectionRow :=
  match item.source with
  | none => none
  | some src =>
    match extractProgId src with
    | none => none
    | some pid =>
      match item.page_content with
      | none => none
      | some content => some ⟨pid, titleOf content, content, jsonDumps item.metadata⟩

/-- The rows collected by the loop, in order. -/
def descRows (items : List DescItem) : List SectionRow :=
  items.filterMap descRow

/-- Lines 77-79 of the loop, run outside the record-level try/except:

    content = item.get("page_content", "")
    metadata = item.get("metadata", {})
    source_url = metadata.get("source", "")

A non-dict item or a non-dict metadata value raises AttributeError there,
failing the asset (`Except.error`); non-string content or source values only
raise later, inside the try, and are recorded as `none`. -/
def itemOfJson : PyJson → Except Unit DescItem
  | .obj fields =>
    match pyDictGet fields "metadata" (.obj []) with
    | .obj mfields =>
      .ok { page_content := asStr (pyDictGet fields "page_content" (.str "")),
            source := asStr (pyDictGet mfields "source" (.str "")),
            metadata := .obj mfields }
    | _ => .error ()
  | _ => .error ()

/-- `for item in data` (line 76): only a JSON array iterates into records;
any other top-level value makes the loop raise outside a try/except (non-dict
items, keys of a dict, characters of a string, non-iterable scalars), failing
the asset. -/
def itemsOfJson : PyJson → Except Unit (List DescItem)
  | .arr xs => xs.mapM itemOfJson
  | _ => .error ()

/-- `program_descriptions_df` applied to the text of the description file:
a failed `json.loads` is caught at line 71 and yields the empty frame;
otherwise the loop runs over the parsed records. -/
def descFrameOfContent (content : String) : Except Unit (List SectionRow) :=
  match jsonLoads content with
  | none => .ok []
  | some v => (itemsOfJson v).map descRows

/-- The full asset: `none` stands for a description file that cannot be
opened or decoded, which the try/except at lines 63-73 also turns into the
empty frame. -/
def program_descriptions_df (file : Option String) : Except Unit (List SectionRow) :=
  match file with
  | none => .ok []
  | some content => descFrameOfContent content

/-- First line of a string: the characters before the first newline. -/
def firstLineOf (s : String) : String :=
  ⟨s.data.takeWhile (fun c => c ≠ '\n')⟩

theorem titleOf_eq (content : String) :
    titleOf content = pyStrip ⟨(firstLineOf content).data.filter (fun c => c ≠ '#')⟩ := by
  unfold titleOf firstLineOf
  have h := splitChar_head '\n' content.data
  cases hs : splitChar '\n' content.data with
  | nil => exact absurd hs (splitChar_ne_nil _ _)
  | cons l0 t =>
    rw [hs] at h
    simp only [List.head?, Option.some.injEq] at h
    simp [h]

/-! ## Tabular frames and the transform assets (assets.py lines 26-55)

A pandas frame is a list of named columns plus row-aligned cell lists; a cell
is null, an integer, or a string. -/

inductive Cell where
  | null
  | int (n : Int)
  | str (s : String)
deriving DecidableEq

structure Frame where
  cols : List String
  rows : List (List Cell)
deriving DecidableEq

/-- Every row has one cell per column. -/
def Frame.Aligned (f : Frame) : Prop :=
  ∀ r ∈ f.rows, r.length = f.cols.length

/-- Index of the first column with a given name. -/
def idxOf? (c : String) : List String → Option Nat
  | [] => none
  | x :: xs => if x = c then some 0 else (idxOf? c xs).map (· + 1)

/-- Indices of a list of column names, or `none` if any is missing. -/
def idxsOf? (cols : List String) : List String → Option (List Nat)
  | [] => some []
  | c :: cs =>
    match idxOf? c cols, idxsOf? cols cs with
    | some i, some is => some (i :: is)
    | _, _ => none

/-- `df[[c1, ..., ck]]`: select columns by name, in the given order; a missing
name raises KeyError (`none`).  Duplicate column labels — which pandas would
select together — do not arise in this pipeline and are outside the model:
the first label wins. -/
def selectCols (f : Frame) (cs : List String) : Option Frame :=
  match idxsOf? f.cols cs with
  | none => none
  | some idxs =>
    some { cols := cs, rows := f.rows.map (fun r => idxs.map (fun i => r.getD i Cell.null)) }

/-- The values of a named column. -/
def colValues (f : Frame) (c : String) : Option (List Cell) :=
  (idxOf? c f.cols).map (fun i => f.rows.map (fun r => r.getD i Cell.null))

/-- `drop_duplicates` keeps the first occurrence of each value, preserving
order; `seen` accumulates the values already kept. -/
def keepFirsts {α : Type} [DecidableEq α] (seen : List α) : List α → List α
  | [] => []
  | a :: l => if a ∈ seen then keepFirsts seen l else a :: keepFirsts (a :: seen) l

/-- `transform_schools_asset` (assets.py lines 34-38):

    df = raw_programs_df[['school_id', 'school_name']].drop_duplicates().copy()
    df = df.rename(columns={"school_id": "id", "school_name": "name"})
-/
def transform_schools_asset (raw_programs_df : Frame) : Option Frame :=
  (selectCols raw_programs_df ["school_id", "school_name"]).map
    (fun sel => { cols := ["id", "name"], rows := keepFirsts [] sel.rows })

/-- The column renaming of `transform_programs_asset` (assets.py lines 45-49). -/
def renameProgCol (c : String) : String :=
  if c = "program_stream_id" then "id"
  else if c = "program_name" then "name"
  else if c = "program_url" then "url"
  else c

/-- The five target columns, in the fixed output order. -/
def targetProgCols : List String :=
  ["id", "school_id", "discipline_id", "name", "url"]

/-- The loop at assets.py lines 51-53: each target column absent from the
frame is added as an all-null column. -/
def ensureCols (f : Frame) : List String → Frame
  | [] => f
  | c :: cs =>
    if c ∈ f.cols then ensureCols f cs
    else ensureCols { cols := f.cols ++ [c], rows := f.rows.map (· ++ [Cell.null]) } cs

/-- `transform_programs_asset` (assets.py lines 41-55): rename, ensure the
five target columns exist, select them in the fixed order. -/
def transform_programs_asset (raw_programs_df : Frame) : Option Frame :=
  let df : Frame := { cols := raw_programs_df.cols.map renameProgCol, rows := raw_programs_df.rows }
  let df2 := ensureCols df targetProgCols
  selectCols df2 targetProgCols

/-! ## The relational store and the loader (assets.py lines 114-180,
models.py)

Typed rows for the four tables of models.py and for the frames the loader
consumes.  Inserts enforce the declared primary keys and foreign keys; a
violation is the database error that makes the enclosing transaction roll
back. -/

/-- A row of the discipline frame (columns `id`, `name` after the rename at
line 132). -/
structure DisciplineRow where
  id : Int
  name : String
deriving DecidableEq

/-- A row of the school frame (columns `id`, `name`). -/
structure SchoolRow where
  id : Int
  name : String
deriving DecidableEq

/-- A row of the program frame (the five columns of
`transform_programs_asset`). -/
structure ProgramRow where
  id : Int
  school_id : Option Int
  discipline_id : Option Int
  name : String
  url : Option String
deriving DecidableEq

/-- A stored `discipline` table row (models.py lines 9-17). -/
structure DisciplineT where
  id : Int
  name : String
  name_fr : Option String
deriving DecidableEq

/-- A stored `school` table row (models.py lines 19-27). -/
structure SchoolT where
  id : Int
  name : String
  province : Option String
deriving DecidableEq

/-- A stored `program` table row (models.py lines 29-44). -/
structure ProgramT where
  id : Int
  school_id : Option Int
  discipline_id : Option Int
  name : String
  description : Option String
  url : Option String
  extra_data : Option String
deriving DecidableEq

/-- A stored `programsection` table row (models.py lines 46-55). -/
structure SectionT where
  id : Int
  program_id : Int
  title : String
  content : String
deriving DecidableEq

/-- The four tables of the relational store. -/
structure Store where
  discipline : List DisciplineT
  school : List SchoolT
  program : List ProgramT
  programsection : List SectionT
deriving DecidableEq

/-- `TRUNCATE TABLE programsection, program, school, discipline RESTART
IDENTITY CASCADE` (line 130). -/
def truncateTables (_ : Store) : Store :=
  ⟨[], [], [], []⟩

/-- A nullable foreign-key cell is valid when null or present among the
referenced ids. -/
def fkOk (v : Option Int) (ids : List Int) : Bool :=
  match v with
  | none => true
  | some i => ids.any (fun j => j = i)

/-- Insert the discipline frame (line 132); the `id` primary key rejects
duplicates. -/
def insertDisciplines (tbl : List DisciplineT) : List DisciplineRow → Except Unit (List DisciplineT)
  | [] => .ok tbl
  | r :: rest =>
    if tbl.any (fun t => t.id = r.id) then .error ()
    else insertDisciplines (tbl ++ [⟨r.id, r.name, none⟩]) rest

/-- Insert the school frame (line 136). -/
def insertSchools (tbl : List SchoolT) : List SchoolRow → Except Unit (List SchoolT)
  | [] => .ok tbl
  | r :: rest =>
    if tbl.any (fun t => t.id = r.id) then .error ()
    else insertSchools (tbl ++ [⟨r.id, r.name, none⟩]) rest

/-- Insert the program frame (line 140); `school_id` and `discipline_id` are
foreign keys into the given school and discipline tables. -/
def insertPrograms (schools : List SchoolT) (discs : List DisciplineT)
    (tbl : List ProgramT) : List ProgramRow → Except Unit (List ProgramT)
  | [] => .ok tbl
  | r :: rest =>
    if tbl.any (fun t => t.id = r.id) then .error ()
    else if !fkOk r.school_id (schools.map (fun s => s.id)) then .error ()
    else if !fkOk r.discipline_id (discs.map (fun d => d.id)) then .error ()
    else insertPrograms schools discs
      (tbl ++ [⟨r.id, r.school_id, r.discipline_id, r.name, none, r.url, none⟩]) rest

/-- Insert the section frame (line 158); `program_id` is a foreign key into
the given program table, and the `id` identity column — restarted by the
truncate — numbers the rows from 1. -/
def insertSections (progs : List ProgramT)
    (tbl : List SectionT) : List SectionRow → Except Unit (List SectionT)
  | [] => .ok tbl
  | r :: rest =>
    if progs.any (fun p => p.id = r.program_id) then
      insertSections progs (tbl ++ [⟨Int.ofNat tbl.length + 1, r.program_id, r.title, r.content⟩]) rest
    else .error ()

/-- The `UPDATE program SET extra_data = ... FROM temp_program_meta` at lines
167-172: each program row matched by a temp row receives that row's
extra_data.  When several temp rows carry the same program_id, Postgres uses
an unspecified one; the embedding picks the first, and the choice is a
function of the frame alone, so re-runs repeat it. -/
def updateExtraData (progs : List ProgramT) (meta : List (Int × String)) : List ProgramT :=
  progs.map (fun p =>
    match (meta.filter (fun m => m.1 = p.id)).head? with
    | some m => { p with extra_data := some m.2 }
    | none => p)

/-- The four frames handed to the loader. -/
structure LoadInput where
  disciplines : List DisciplineRow
  schools : List SchoolRow
  programs : List ProgramRow
  descriptions : List SectionRow
deriving DecidableEq

/-- The run metadata reported at lines 175-180. -/
structure RunMetadata where
  disciplines_count : Nat
  schools_count : Nat
  programs_count : Nat
  sections_count : Nat
deriving DecidableEq

/-- The write phase inside `with engine.begin()` (lines 127-173): truncate,
insert disciplines, schools, programs; then, if there are description rows,
insert the sections and patch `extra_data` on matching programs through the
temp table (created and dropped inside the same transaction).  The
`meta_df.dropna()` at line 164 never drops anything: `program_id` and
`extra_data` are non-null in every parsed description row. -/
def loadBody (store : Store) (inp : LoadInput) : Except Unit Store :=
  let st := truncateTables store
  match insertDisciplines st.discipline inp.disciplines with
  | .error e => .error e
  | .ok d =>
    match insertSchools st.school inp.schools with
    | .error e => .error e
    | .ok s =>
      match insertPrograms s d st.program inp.programs with
      | .error e => .error e
      | .ok p =>
        if inp.descriptions.isEmpty then
          .ok { discipline := d, school := s, program := p,
                programsection := st.programsection }
        else
          match insertSections p st.programsection inp.descriptions with
          | .error e => .error e
          | .ok secs =>
            .ok { discipline := d, school := s,
                  program := updateExtraData p
                    (inp.descriptions.map fun r => (r.program_id, r.extra_data)),
                  programsection := secs }

/-- `load_to_postgres` (lines 114-180): the write phase runs in one
transaction — on success it commits and the asset reports the frame lengths
as metadata; on an exception SQLAlchemy rolls the transaction back, the store
keeps its prior contents, and the asset raises (`none` metadata, failed
run). -/
def load_to_postgres (store : Store) (inp : LoadInput) : Store × Option RunMetadata :=
  match loadBody store inp with
  | .ok st =>
    (st, some ⟨inp.disciplines.length, inp.schools.length, inp.programs.length,
               inp.descriptions.length⟩)
  | .error _ => (store, none)

/-! ## Properties of `keepFirsts` (pandas `drop_duplicates`) -/

theorem mem_keepFirsts {α : Type} [DecidableEq α] {seen l : List α} {a : α} :
    a ∈ keepFirsts seen l ↔ a ∈ l ∧ a ∉ seen := by
  induction l generalizing seen with
  | nil => simp [keepFirsts]
  | cons b t ih =>
    by_cases hb : b ∈ seen
    · rw [keepFirsts, if_pos hb, ih]
      simp only [List.mem_cons]
      constructor
      · exact fun h => ⟨Or.inr h.1, h.2⟩
      · rintro ⟨hab | hat, hs⟩
        · exact absurd (hab ▸ hb) hs
        · exact ⟨hat, hs⟩
    · rw [keepFirsts, if_neg hb]
      simp only [List.mem_cons, ih, not_or]
      constructor
      · rintro (hab | ⟨hat, hnb, hns⟩)
        · exact ⟨Or.inl hab, hab ▸ hb⟩
        · exact ⟨Or.inr hat, hns⟩
      · rintro ⟨hab | hat, hs⟩
        · exact Or.inl hab
        · by_cases hba : a = b
          · exact Or.inl hba
          · exact Or.inr ⟨hat, hba, hs⟩

theorem nodup_keepFirsts {α : Type} [DecidableEq α] (seen l : List α) :
    (keepFirsts seen l).Nodup := by
  induction l generalizing seen with
  | nil => simp [keepFirsts]
  | cons b t ih =>
    by_cases hb : b ∈ seen
    · rw [keepFirsts, if_pos hb]
      exact ih seen
    · rw [keepFirsts, if_neg hb]
      refine List.nodup_cons.mpr ⟨fun hmem => ?_, ih _⟩
      exact (mem_keepFirsts.mp hmem).2 (List.mem_cons_self b seen)

theorem keepFirsts_sublist {α : Type} [DecidableEq α] (seen l : List α) :
    (keepFirsts seen l).Sublist l := by
  induction l generalizing seen with
  | nil => simp [keepFirsts]
  | cons b t ih =>
    by_cases hb : b ∈ seen
    · rw [keepFirsts, if_pos hb]
      exact (ih seen).trans (List.sublist_cons_self b t)
    · rw [keepFirsts, if_neg hb]
      exact (ih _).cons₂ b

/-- `keepFirsts` is the fold that keeps the first occurrence of each value in
encounter order (stated for frame rows). -/
theorem foldl_dedup_eq_keepFirsts (l : List (List Cell)) :
    ∀ (acc seen : List (List Cell)), (∀ x, x ∈ seen ↔ x ∈ acc) →
      l.foldl (fun acc r => if r ∈ acc then acc else acc ++ [r]) acc =
        acc ++ keepFirsts seen l := by
  induction l with
  | nil => intro acc seen _; simp [keepFirsts]
  | cons b t ih =>
    intro acc seen h
    simp only [List.foldl_cons]
    by_cases hb : b ∈ seen
    · rw [if_pos ((h b).mp hb), keepFirsts, if_pos hb]
      exact ih acc seen h
    · rw [if_neg (fun hacc => hb ((h b).mpr hacc)), keepFirsts, if_neg hb]
      rw [ih (acc ++ [b]) (b :: seen)
        (by intro x; simp only [List.mem_cons, List.mem_append, List.mem_singleton, h x]; tauto)]
      simp [List.append_assoc]

/-! ## Properties of the loader -/

/-- The write phase reads nothing of the prior store: its first statement
truncates all four tables. -/
theorem loadBody_store_indep (s1 s2 : Store) (inp : LoadInput) :
    loadBody s1 inp = loadBody s2 inp := rfl

/-- Every program row present after a successful program insert either was in
the table already or satisfies both foreign-key checks against the given
school and discipline tables. -/
theorem insertPrograms_mem (schools : List SchoolT) (discs : List DisciplineT) :
    ∀ (rows : List ProgramRow) (tbl out : List ProgramT),
      insertPrograms schools discs tbl rows = .ok out →
      ∀ q ∈ out, q ∈ tbl ∨
        (fkOk q.school_id (schools.map fun s => s.id) = true ∧
         fkOk q.discipline_id (discs.map fun d => d.id) = true) := by
  intro rows
  induction rows with
  | nil =>
    intro tbl out h q hq
    rw [insertPrograms] at h
    cases h
    exact Or.inl hq
  | cons r rest ih =>
    intro tbl out h q hq
    rw [insertPrograms] at h
    by_cases h1 : tbl.any (fun t => t.id = r.id)
    · rw [if_pos h1] at h
      cases h
    · rw [if_neg h1] at h
      by_cases h2 : !fkOk r.school_id (schools.map fun s => s.id)
      · rw [if_pos h2] at h
        cases h
      · rw [if_neg h2] at h
        by_cases h3 : !fkOk r.discipline_id (discs.map fun d => d.id)
        · rw [if_pos h3] at h
          cases h
        · rw [if_neg h3] at h
          rcases ih _ _ h q hq with hin | hfk
          · rcases List.mem_append.mp hin with hin | hin
            · exact Or.inl hin
            · rcases List.mem_singleton.mp hin with rfl
              exact Or.inr ⟨by simpa using h2, by simpa using h3⟩
          · exact Or.inr hfk

/-- Every section row present after a successful section insert either was in
the table already or references an id of the given program table. -/
theorem insertSections_mem (progs : List ProgramT) :
    ∀ (rows : List SectionRow) (tbl out : List SectionT),
      insertSections progs tbl rows = .ok out →
      ∀ q ∈ out, q ∈ tbl ∨ (progs.any fun p => p.id = q.program_id) = true := by
  intro rows
  induction rows with
  | nil =>
    intro tbl out h q hq
    rw [insertSections] at h
    cases h
    exact Or.inl hq
  | cons r rest ih =>
    intro tbl out h q hq
    rw [insertSections] at h
    by_cases h1 : progs.any (fun p => p.id = r.program_id)
    · rw [if_pos h1] at h
      rcases ih _ _ h q hq with hin | hfk
      · rcases List.mem_append.mp hin with hin | hin
        · exact Or.inl hin
        · rcases List.mem_singleton.mp hin with rfl
          exact Or.inr h1
      · exact Or.inr hfk
    · rw [if_neg h1] at h
      cases h

/-- The `extra_data` patch changes no id, school_id or discipline_id. -/
theorem updateExtraData_fields (p : List ProgramT) (meta : List (Int × String))
    (q : ProgramT) (hq : q ∈ updateExtraData p meta) :
    ∃ p0 ∈ p, q.id = p0.id ∧ q.school_id = p0.school_id ∧
      q.discipline_id = p0.discipline_id := by
  unfold updateExtraData at hq
  rcases List.mem_map.mp hq with ⟨p0, hp0, heq⟩
  refine ⟨p0, hp0, ?_⟩
  cases hm : (meta.filter fun m => m.1 = p0.id).head? <;> rw [hm] at heq <;> subst heq <;> simp

/-- The `extra_data` patch keeps every program id. -/
theorem updateExtraData_id_surj (p : List ProgramT) (meta : List (Int × String))
    (p0 : ProgramT) (hp0 : p0 ∈ p) :
    ∃ q ∈ updateExtraData p meta, q.id = p0.id := by
  unfold updateExtraData
  refine ⟨_, List.mem_map.mpr ⟨p0, hp0, rfl⟩, ?_⟩
  cases hm : (meta.filter fun m => m.1 = p0.id).head? <;> simp [hm]

/-- The `extra_data` patch keeps the row count. -/
theorem updateExtraData_length (p : List ProgramT) (meta : List (Int × String)) :
    (updateExtraData p meta).length = p.length :=
  List.length_map _ _

/-- Inverting a successful write phase into its constituent inserts. -/
theorem loadBody_ok_inv (store : Store) (inp : LoadInput) (st : Store)
    (h : loadBody store inp = .ok st) :
    ∃ d s p, insertDisciplines [] inp.disciplines = .ok d
      ∧ insertSchools [] inp.schools = .ok s
      ∧ insertPrograms s d [] inp.programs = .ok p
      ∧ ((inp.descriptions.isEmpty = true ∧ st = ⟨d, s, p, []⟩)
         ∨ (inp.descriptions.isEmpty = false ∧ ∃ secs,
              insertSections p [] inp.descriptions = .ok secs
              ∧ st = ⟨d, s,
                  updateExtraData p (inp.descriptions.map fun r => (r.program_id, r.extra_data)),
                  secs⟩)) := by
  unfold loadBody at h
  simp only [truncateTables] at h
  split at h
  · cases h
  · rename_i d hd
    split at h
    · cases h
    · rename_i s hs
      split at h
      · cases h
      · rename_i p hp
        refine ⟨d, s, p, hd, hs, hp, ?_⟩
        by_cases hD : inp.descriptions.isEmpty
        · rw [if_pos hD] at h
          cases h
          exact Or.inl ⟨hD, rfl⟩
        · rw [if_neg hD] at h
          split at h
          · cases h
          · rename_i secs hsec
            cases h
            exact Or.inr ⟨Bool.eq_false_iff.mpr hD, secs, hsec, rfl⟩

/-- Building a successful write phase from successful inserts, for an empty
description frame. -/
theorem loadBody_ok_emptyDesc (store : Store)
    (dRows : List DisciplineRow) (sRows : List SchoolRow) (pRows : List ProgramRow)
    (d : List DisciplineT) (s : List SchoolT) (p : List ProgramT)
    (hd : insertDisciplines [] dRows = .ok d)
    (hs : insertSchools [] sRows = .ok s)
    (hp : insertPrograms s d [] pRows = .ok p) :
    loadBody store ⟨dRows, sRows, pRows, []⟩ = .ok ⟨d, s, p, []⟩ := by
  unfold loadBody
  simp [truncateTables, hd, hs, hp]

/-- Membership form of a passed foreign-key check. -/
theorem fkOk_mem (v : Option Int) (ids : List Int) (h : fkOk v ids = true)
    (i : Int) (hv : v = some i) : i ∈ ids := by
  subst hv
  simp only [fkOk, List.any_eq_true, decide_eq_true_eq] at h
  rcases h with ⟨j, hj, rfl⟩
  exact hj

/-! ## Claims about the loader -/

/-- Claim C1: if any part of the write phase after the truncate fails, the
transaction rolls back and the four tables keep exactly the contents they had
before the run; a failed load never leaves tables truncated but not
repopulated, or partially loaded. -/
theorem claim1_load_failure_rolls_back (store : Store) (inp : LoadInput)
    (h : ∃ e, loadBody store inp = .error e) :
    (load_to_postgres store inp).1.discipline = store.discipline
  ∧ (load_to_postgres store inp).1.school = store.school
  ∧ (load_to_postgres store inp).1.program = store.program
  ∧ (load_to_postgres store inp).1.programsection = store.programsection
  ∧ (load_to_postgres store inp).2 = none := by
  obtain ⟨e, he⟩ := h
  simp [load_to_postgres, he]

/-- A populated prior store, and an input whose write phase fails after the
truncate: the discipline frame carries a duplicated primary key. -/
def c1PriorStore : Store :=
  ⟨[⟨7, "Surgery", none⟩], [⟨3, "Old U", none⟩],
   [⟨9, some 3, some 7, "Old prog", none, none, none⟩], [⟨1, 9, "T", "C"⟩]⟩

def c1BadInput : LoadInput :=
  ⟨[⟨1, "Medicine"⟩, ⟨1, "Medicine again"⟩], [], [], []⟩

theorem claim1_load_failure_rolls_back_witness :
    (load_to_postgres c1PriorStore c1BadInput).1.discipline = c1PriorStore.discipline
  ∧ (load_to_postgres c1PriorStore c1BadInput).1.school = c1PriorStore.school
  ∧ (load_to_postgres c1PriorStore c1BadInput).1.program = c1PriorStore.program
  ∧ (load_to_postgres c1PriorStore c1BadInput).1.programsection = c1PriorStore.programsection
  ∧ (load_to_postgres c1PriorStore c1BadInput).2 = none :=
  claim1_load_failure_rolls_back c1PriorStore c1BadInput ⟨(), rfl⟩

/-- Claim C2: after a successful load, every program row's school_id is null
or the id of a school row, its discipline_id is null or the id of a
discipline row, and every programsection row's program_id is the id of a
program row. -/
theorem claim2_load_referential_integrity (store : Store) (inp : LoadInput)
    (st : Store) (m : RunMetadata) (h : load_to_postgres store inp = (st, some m)) :
    (∀ q ∈ st.program,
       (∀ i, q.school_id = some i → ∃ s ∈ st.school, s.id = i) ∧
       (∀ i, q.discipline_id = some i → ∃ d ∈ st.discipline, d.id = i))
  ∧ (∀ sec ∈ st.programsection, ∃ q ∈ st.program, q.id = sec.program_id) := by
  have hok : loadBody store inp = .ok st := by
    unfold load_to_postgres at h
    cases hb : loadBody store inp with
    | error e => rw [hb] at h; simp at h
    | ok st' => rw [hb] at h; simp only [Prod.mk.injEq] at h; rw [h.1]
  obtain ⟨d, s, p, hd, hs, hp, hrest⟩ := loadBody_ok_inv store inp st hok
  have hfk : ∀ q ∈ p,
      (∀ i, q.school_id = some i → ∃ sr ∈ s, sr.id = i) ∧
      (∀ i, q.discipline_id = some i → ∃ dr ∈ d, dr.id = i) := by
    intro q hq
    rcases insertPrograms_mem s d inp.programs [] p hp q hq with hin | ⟨hfs, hfd⟩
    · cases hin
    · constructor
      · intro i hi
        have := fkOk_mem _ _ hfs i hi
        rcases List.mem_map.mp this with ⟨sr, hsr, rfl⟩
        exact ⟨sr, hsr, rfl⟩
      · intro i hi
        have := fkOk_mem _ _ hfd i hi
        rcases List.mem_map.mp this with ⟨dr, hdr, rfl⟩
        exact ⟨dr, hdr, rfl⟩
  rcases hrest with ⟨_, rfl⟩ | ⟨_, secs, hsec, rfl⟩
  · exact ⟨hfk, by intro sec hsec; cases hsec⟩
  · constructor
    · intro q hq
      obtain ⟨p0, hp0, hid, hsid, hdid⟩ := updateExtraData_fields p _ q hq
      rcases hfk p0 hp0 with ⟨h1, h2⟩
      exact ⟨fun i hi => h1 i (hsid ▸ hi), fun i hi => h2 i (hdid ▸ hi)⟩
    · intro sec hsecm
      rcases insertSections_mem p inp.descriptions [] secs hsec sec hsecm with hin | hany
      · cases hin
      · simp only [List.any_eq_true, decide_eq_true_eq] at hany
        rcases hany with ⟨p0, hp0, hid⟩
        obtain ⟨q, hq, hqid⟩ := updateExtraData_id_surj p _ p0 hp0
        exact ⟨q, hq, hqid.trans hid⟩

/-- A small successful run exercising every foreign key and the extra_data
patch. -/
def c2Store : Store := ⟨[], [], [], []⟩

def c2Input : LoadInput :=
  ⟨[⟨7, "Surgery"⟩], [⟨3, "U"⟩], [⟨9, some 3, some 7, "Prog", none⟩],
   [⟨9, "Overview", "Details", "null"⟩]⟩

def c2Result : Store :=
  ⟨[⟨7, "Surgery", none⟩], [⟨3, "U", none⟩],
   [⟨9, some 3, some 7, "Prog", none, none, some "null"⟩], [⟨1, 9, "Overview", "Details"⟩]⟩

theorem claim2_load_referential_integrity_witness :
    (∀ q ∈ c2Result.program,
       (∀ i, q.school_id = some i → ∃ s ∈ c2Result.school, s.id = i) ∧
       (∀ i, q.discipline_id = some i → ∃ d ∈ c2Result.discipline, d.id = i))
  ∧ (∀ sec ∈ c2Result.programsection, ∃ q ∈ c2Result.program, q.id = sec.program_id) :=
  claim2_load_referential_integrity c2Store c2Input c2Result ⟨1, 1, 1, 1⟩ rfl

/-- Claim C3: for a fixed input, the contents a successful load produces do
not depend on the prior contents of the store — two successful runs from any
two prior states produce identical tables and metadata. -/
theorem claim3_load_ignores_prior_store (s1 s2 : Store) (inp : LoadInput)
    (st1 st2 : Store) (m1 m2 : RunMetadata)
    (h1 : load_to_postgres s1 inp = (st1, some m1))
    (h2 : load_to_postgres s2 inp = (st2, some m2)) :
    st1 = st2 ∧ m1 = m2 := by
  have hb := loadBody_store_indep s1 s2 inp
  unfold load_to_postgres at h1 h2
  cases hcase : loadBody s1 inp with
  | error e =>
    rw [hcase] at h1
    simp at h1
  | ok st =>
    rw [hcase] at h1
    rw [hb] at hcase
    rw [hcase] at h2
    simp only [Prod.mk.injEq, Option.some.injEq] at h1 h2
    exact ⟨h1.1 ▸ h2.1 ▸ rfl, h1.2 ▸ h2.2 ▸ rfl⟩

def c3StoreA : Store := ⟨[], [], [], []⟩

def c3StoreB : Store :=
  ⟨[⟨5, "Stale", none⟩], [⟨8, "Stale U", none⟩], [], []⟩

def c3Input : LoadInput := ⟨[⟨1, "Medicine"⟩], [], [], []⟩

def c3Result : Store := ⟨[⟨1, "Medicine", none⟩], [], [], []⟩

theorem claim3_load_ignores_prior_store_witness :
    c3Result = c3Result ∧ (⟨1, 0, 0, 0⟩ : RunMetadata) = ⟨1, 0, 0, 0⟩ :=
  claim3_load_ignores_prior_store c3StoreA c3StoreB c3Input c3Result c3Result
    ⟨1, 0, 0, 0⟩ ⟨1, 0, 0, 0⟩ rfl rfl

/-! ## Claims about the description step -/

/-- Claim C4: the program id is extracted by stripping any query string,
splitting on `/`, and taking the last segment if entirely numeric, else the
second-to-last if that is numeric; a record yielding neither is skipped
without failing the step; the two quoted URLs both yield 88821. -/
theorem claim4_program_id_extraction :
    (∀ u : String, extractProgId u = specExtractId u)
  ∧ (∀ (item : DescItem) (rest : List DescItem) (u : String),
       item.source = some u → extractProgId u = none →
       descRows (item :: rest) = descRows rest)
  ∧ extractProgId ".../program/2024/88821?lang=en" = some 88821
  ∧ extractProgId ".../program/2024/88821/" = some 88821 := by
  refine ⟨extractProgId_eq_spec, ?_, rfl, rfl⟩
  intro item rest u hsrc hnone
  simp [descRows, descRow, hsrc, hnone]

def c4SkipItem : DescItem :=
  ⟨some "text", some "https://site.ca/program/final-page", PyJson.obj []⟩

theorem claim4_program_id_extraction_witness :
    descRows [c4SkipItem] = descRows [] :=
  claim4_program_id_extraction.2.1 c4SkipItem [] "https://site.ca/program/final-page" rfl rfl

/-- A record whose first content line holds a `#` inside the title text. -/
def c5HashItem : DescItem :=
  ⟨some "# C# Track\nDetails here", some "https://site.ca/program/2024/99?lang=en",
   PyJson.obj []⟩

/-- A record with empty page_content. -/
def c5EmptyItem : DescItem :=
  ⟨some "", some "https://site.ca/program/2024/99?lang=en", PyJson.obj []⟩

/-- Claim C5 is false on the code in both of its clauses:
`replace('#', '')` removes every `#` of the first line, not only the leading
ones, so the inner `#` of `"# C# Track"` is lost; and an empty page_content
yields the empty title, not the fallback `"Program Description"`, because
Python `"".split('\n')` is `[""]`, a truthy list. -/
theorem claim5_counterexample :
    (descRows [c5HashItem]).map SectionRow.title = ["C Track"]
  ∧ "C Track" ≠ "C# Track"
  ∧ (descRows [c5EmptyItem]).map SectionRow.title = [""]
  ∧ "" ≠ "Program Description" := by
  refine ⟨rfl, by decide, rfl, by decide⟩

/-- Claim C5 amended: for every record that is not skipped, the title is the
first line of page_content with all `#` characters removed (wherever they
occur) and surrounding whitespace stripped; empty page_content yields the
empty title — the `"Program Description"` fallback is unreachable since
`split` always returns at least one line. -/
theorem claim5_amended_title_extraction :
    (∀ (item : DescItem) (r : SectionRow), descRow item = some r →
       ∃ c, item.page_content = some c
         ∧ r.title = pyStrip ⟨(firstLineOf c).data.filter (fun ch => ch ≠ '#')⟩
         ∧ r.content = c)
  ∧ titleOf "" = "" := by
  refine ⟨?_, rfl⟩
  intro item r h
  unfold descRow at h
  split at h
  · cases h
  · rename_i src hsrc
    split at h
    · cases h
    · rename_i pid hpid
      split at h
      · cases h
      · rename_i c hc
        cases h
        exact ⟨c, hc, titleOf_eq c, rfl⟩

theorem claim5_amended_title_extraction_witness :
    ∃ c, c5HashItem.page_content = some c
      ∧ ("C Track" : String) = pyStrip ⟨(firstLineOf c).data.filter (fun ch => ch ≠ '#')⟩
      ∧ ("# C# Track\nDetails here" : String) = c :=
  claim5_amended_title_extraction.1 c5HashItem
    ⟨99, "C Track", "# C# Track\nDetails here", "\x7b\x7d"⟩ rfl

/-- The bytes of a genuine zip archive: one stored entry named `123.md`
whose text is `"# Family Medicine\nBody here"`.  Every byte is below 128,
so the utf-8 decode the source applies to the file is the identity on it. -/
def zipOfMarkdownBytes : List Nat :=
  [80, 75, 3, 4, 20, 0, 0, 0, 0, 0, 0, 0, 33, 0, 96, 102, 124, 68, 27, 0, 0, 0, 27, 0,
   0, 0, 6, 0, 0, 0, 49, 50, 51, 46, 109, 100, 35, 32, 70, 97, 109, 105, 108, 121, 32,
   77, 101, 100, 105, 99, 105, 110, 101, 10, 66, 111, 100, 121, 32, 104, 101, 114, 101,
   80, 75, 1, 2, 20, 0, 20, 0, 0, 0, 0, 0, 0, 0, 33, 0, 96, 102, 124, 68, 27, 0, 0, 0,
   27, 0, 0, 0, 6, 0, 0, 0, 0, 0, 0, 0, 0, 0, 32, 0, 0, 0, 0, 0, 0, 0, 49, 50, 51, 46,
   109, 100, 80, 75, 5, 6, 0, 0, 0, 0, 1, 0, 1, 0, 52, 0, 0, 0, 63, 0, 0, 0, 0, 0]

def zipOfMarkdownText : String :=
  ⟨zipOfMarkdownBytes.map Char.ofNat⟩

set_option maxRecDepth 8192 in
/-- Claim C6 is false on the code: there is no zip-of-markdown handling in
the description step.  Handed the text of a real zip whose single entry
`123.md` holds `"# Family Medicine\nBody here"` — for which the claim
requires a section row with program id 123, title `"Family Medicine"` and
content `"Body here"` — `json.loads` rejects the bytes and the step returns
the empty frame, producing no row at all. -/
theorem claim6_counterexample :
    jsonLoads zipOfMarkdownText = none
  ∧ descFrameOfContent zipOfMarkdownText = .ok [] :=
  ⟨rfl, rfl⟩

/-- Claim C6 amended: the description step supports only the JSON shape; a
source whose text `json.loads` rejects — a zip-of-markdown archive in
particular — yields the empty frame, without failing the step and without
parsing any zip entry. -/
theorem claim6_amended_no_zip_support (content : String)
    (h : jsonLoads content = none) :
    descFrameOfContent content = .ok [] := by
  simp [descFrameOfContent, h]

set_option maxRecDepth 8192 in
theorem claim6_amended_no_zip_support_witness :
    descFrameOfContent zipOfMarkdownText = .ok [] :=
  claim6_amended_no_zip_support zipOfMarkdownText rfl

/-- Claim C7: an unopenable or undecodable or unparseable description source
yields the empty frame instead of raising; the run then completes, with the
same discipline/school/program row counts as a run with description rows
present, no section rows, and a reported sections_count of 0. -/
theorem claim7_missing_descriptions :
    program_descriptions_df none = .ok ([] : List SectionRow)
  ∧ (∀ content, jsonLoads content = none →
       program_descriptions_df (some content) = .ok [])
  ∧ (∀ (store : Store) (dR : List DisciplineRow) (sR : List SchoolRow)
       (pR : List ProgramRow) (D : List SectionRow) (st : Store) (m : RunMetadata),
       load_to_postgres store ⟨dR, sR, pR, D⟩ = (st, some m) →
       ∃ st0, load_to_postgres store ⟨dR, sR, pR, []⟩ =
                (st0, some ⟨dR.length, sR.length, pR.length, 0⟩)
         ∧ st0.discipline.length = st.discipline.length
         ∧ st0.school.length = st.school.length
         ∧ st0.program.length = st.program.length
         ∧ st0.programsection = []) := by
  refine ⟨rfl, ?_, ?_⟩
  · intro content h
    simp [program_descriptions_df, descFrameOfContent, h]
  · intro store dR sR pR D st m h
    have hok : loadBody store ⟨dR, sR, pR, D⟩ = .ok st := by
      unfold load_to_postgres at h
      cases hb : loadBody store ⟨dR, sR, pR, D⟩ with
      | error e => rw [hb] at h; simp at h
      | ok st' => rw [hb] at h; simp only [Prod.mk.injEq] at h; rw [h.1]
    obtain ⟨d, s, p, hd, hs, hp, hrest⟩ := loadBody_ok_inv store ⟨dR, sR, pR, D⟩ st hok
    have h0 : loadBody store ⟨dR, sR, pR, []⟩ = .ok ⟨d, s, p, []⟩ :=
      loadBody_ok_emptyDesc store dR sR pR d s p hd hs hp
    refine ⟨⟨d, s, p, []⟩, by simp [load_to_postgres, h0], ?_, ?_, ?_, rfl⟩ <;>
      rcases hrest with ⟨_, rfl⟩ | ⟨_, secs, hsec, rfl⟩
    · rfl
    · rfl
    · rfl
    · rfl
    · rfl
    · exact (updateExtraData_length p _).symm

def c7Store : Store := ⟨[], [], [], []⟩

def c7DR : List DisciplineRow := [⟨1, "Medicine"⟩]

def c7SR : List SchoolRow := []

def c7PR : List ProgramRow := [⟨4, none, some 1, "P", none⟩]

def c7Desc : List SectionRow := [⟨4, "T", "C", "null"⟩]

def c7FullResult : Store :=
  ⟨[⟨1, "Medicine", none⟩], [], [⟨4, none, some 1, "P", none, none, some "null"⟩],
   [⟨1, 4, "T", "C"⟩]⟩

theorem claim7_missing_descriptions_witness :
    ∃ st0, load_to_postgres c7Store ⟨c7DR, c7SR, c7PR, []⟩ =
             (st0, some ⟨1, 0, 1, 0⟩)
      ∧ st0.discipline.length = c7FullResult.discipline.length
      ∧ st0.school.length = c7FullResult.school.length
      ∧ st0.program.length = c7FullResult.program.length
      ∧ st0.programsection = [] :=
  claim7_missing_descriptions.2.2 c7Store c7DR c7SR c7PR c7Desc c7FullResult
    ⟨1, 0, 1, 1⟩ rfl

/-! ## Claims about the transform assets -/

/-- Claim C8: the school transformer outputs exactly one row per distinct
(school_id, school_name) pair of the input, renamed to (id, name), with
distinctness by exact pair equality, first-occurrence order preserved, and
at most one output row per input row. -/
theorem claim8_school_dedup (raw sel : Frame)
    (h : selectCols raw ["school_id", "school_name"] = some sel) :
    ∃ out, transform_schools_asset raw = some out
      ∧ out.cols = ["id", "name"]
      ∧ out.rows = sel.rows.foldl (fun acc r => if r ∈ acc then acc else acc ++ [r]) []
      ∧ out.rows.Nodup
      ∧ (∀ r, r ∈ out.rows ↔ r ∈ sel.rows)
      ∧ out.rows.Sublist sel.rows
      ∧ out.rows.length ≤ raw.rows.length := by
  have hlen : sel.rows.length = raw.rows.length := by
    unfold selectCols at h
    cases hm : idxsOf? raw.cols ["school_id", "school_name"] with
    | none => rw [hm] at h; cases h
    | some idxs =>
      rw [hm] at h
      cases h
      simp
  refine ⟨⟨["id", "name"], keepFirsts [] sel.rows⟩, ?_, rfl, ?_,
          nodup_keepFirsts _ _, ?_, keepFirsts_sublist _ _, ?_⟩
  · unfold transform_schools_asset
    rw [h]
    rfl
  · exact ((foldl_dedup_eq_keepFirsts sel.rows [] [] (fun x => Iff.rfl)).trans
      (List.nil_append _)).symm
  · intro r
    rw [mem_keepFirsts]
    simp
  · exact hlen ▸ (keepFirsts_sublist [] sel.rows).length_le

def c8Raw : Frame :=
  ⟨["school_id", "school_name", "program_name"],
   [[Cell.int 1, Cell.str "A", Cell.str "P1"],
    [Cell.int 1, Cell.str "A", Cell.str "P2"],
    [Cell.int 2, Cell.str "B", Cell.str "P3"]]⟩

def c8Sel : Frame :=
  ⟨["school_id", "school_name"],
   [[Cell.int 1, Cell.str "A"], [Cell.int 1, Cell.str "A"], [Cell.int 2, Cell.str "B"]]⟩

theorem claim8_school_dedup_witness :
    ∃ out, transform_schools_asset c8Raw = some out
      ∧ out.cols = ["id", "name"]
      ∧ out.rows = c8Sel.rows.foldl (fun acc r => if r ∈ acc then acc else acc ++ [r]) []
      ∧ out.rows.Nodup
      ∧ (∀ r, r ∈ out.rows ↔ r ∈ c8Sel.rows)
      ∧ out.rows.Sublist c8Sel.rows
      ∧ out.rows.length ≤ c8Raw.rows.length :=
  claim8_school_dedup c8Raw c8Sel rfl

/-- A raw program frame in which one school_id occurs under two distinct
school_name spellings. -/
def c10Raw : Frame :=
  ⟨["school_id", "school_name"],
   [[Cell.int 1, Cell.str "Main campus"], [Cell.int 1, Cell.str "Main Campus"]]⟩

/-- Claim C10: because dedup is by the exact pair, the two spellings survive
as two school rows sharing id 1; the school transformer therefore does not
guarantee unique ids, and the school insert of the load rejects the pair on
the school primary key, failing the write phase. -/
theorem claim10_duplicate_school_ids :
    transform_schools_asset c10Raw =
      some ⟨["id", "name"],
            [[Cell.int 1, Cell.str "Main campus"], [Cell.int 1, Cell.str "Main Campus"]]⟩
  ∧ (∀ r ∈ [[Cell.int 1, Cell.str "Main campus"], [Cell.int 1, Cell.str "Main Campus"]],
       r.head? = some (Cell.int 1))
  ∧ insertSchools [] [⟨1, "Main campus"⟩, ⟨1, "Main Campus"⟩] = .error ()
  ∧ loadBody ⟨[], [], [], []⟩ ⟨[], [⟨1, "Main campus"⟩, ⟨1, "Main Campus"⟩], [], []⟩ =
      .error () :=
  ⟨rfl, by decide, rfl, rfl⟩

/-! ## Lemmas for the program transformer -/

theorem idxOf?_isSome_of_mem {c : String} :
    ∀ {l : List String}, c ∈ l → ∃ i, idxOf? c l = some i := by
  intro l
  induction l with
  | nil => intro h; cases h
  | cons x xs ih =>
    intro h
    by_cases hx : x = c
    · exact ⟨0, by simp [idxOf?, hx]⟩
    · rcases List.mem_cons.mp h with h1 | h1
      · exact absurd h1.symm hx
      · rcases ih h1 with ⟨i, hi⟩
        exact ⟨i + 1, by simp [idxOf?, hx, hi]⟩

theorem idxOf?_append_of_mem {c : String} :
    ∀ {l1 : List String} (l2 : List String), c ∈ l1 →
      idxOf? c (l1 ++ l2) = idxOf? c l1 := by
  intro l1
  induction l1 with
  | nil => intro l2 h; cases h
  | cons x xs ih =>
    intro l2 h
    by_cases hx : x = c
    · simp [idxOf?, hx]
    · rcases List.mem_cons.mp h with h1 | h1
      · exact absurd h1.symm hx
      · simp [idxOf?, hx, ih l2 h1]

theorem idxOf?_append_right {c : String} {l2 : List String} {j : Nat}
    (h2 : idxOf? c l2 = some j) :
    ∀ (l1 : List String), c ∉ l1 → idxOf? c (l1 ++ l2) = some (l1.length + j) := by
  intro l1
  induction l1 with
  | nil => intro _; simpa using h2
  | cons x xs ih =>
    intro h
    have hx : ¬ x = c := fun e => h (List.mem_cons.mpr (Or.inl e.symm))
    have hxs : c ∉ xs := fun hc => h (List.mem_cons_of_mem x hc)
    rw [List.cons_append, idxOf?, if_neg hx, ih hxs]
    simp only [Option.map_some', Option.some.injEq, List.length_cons]
    omega

theorem getD_map_idxOf? {β : Type} (f : String → β) (d : β) (c : String) :
    ∀ (cs : List String) (j : Nat), idxOf? c cs = some j → (cs.map f).getD j d = f c := by
  intro cs
  induction cs with
  | nil => intro j h; cases h
  | cons x xs ih =>
    intro j h
    rw [idxOf?] at h
    by_cases hx : x = c
    · rw [if_pos hx] at h
      cases h
      simp [hx]
    · rw [if_neg hx] at h
      cases hi : idxOf? c xs with
      | none => rw [hi] at h; cases h
      | some j0 =>
        rw [hi] at h
        cases h
        simpa using ih j0 hi

theorem getD_replicate_null : ∀ (k j : Nat),
    (List.replicate k Cell.null).getD j Cell.null = Cell.null := by
  intro k
  induction k with
  | zero => intro j; simp
  | succ k ih =>
    intro j
    cases j with
    | zero => simp [List.replicate_succ]
    | succ j =>
      rw [List.replicate_succ, List.getD_cons_succ]
      exact ih j

theorem getD_append_replicate_null (r : List Cell) (k i : Nat) :
    (r ++ List.replicate k Cell.null).getD i Cell.null = r.getD i Cell.null := by
  by_cases hi : i < r.length
  · exact List.getD_append _ _ _ _ hi
  · rw [List.getD_append_right _ _ _ _ (Nat.le_of_not_lt hi), getD_replicate_null,
        List.getD_eq_default _ _ (Nat.le_of_not_lt hi)]

theorem map_const_eq_replicate {α β : Type} (l : List α) (b : β) :
    l.map (fun _ => b) = List.replicate l.length b := by
  induction l with
  | nil => rfl
  | cons x xs ih => simp [List.replicate_succ, ih]

/-- The names `ensureCols` appends, in order: the requested names absent from
the present columns. -/
def newCols (present : List String) : List String → List String
  | [] => []
  | c :: cs => if c ∈ present then newCols present cs else c :: newCols (present ++ [c]) cs

theorem mem_newCols {a : String} :
    ∀ {cs present : List String}, a ∈ newCols present cs ↔ (a ∈ cs ∧ a ∉ present) := by
  intro cs
  induction cs with
  | nil => intro present; simp [newCols]
  | cons c cs ih =>
    intro present
    rw [newCols]
    by_cases hc : c ∈ present
    · rw [if_pos hc, ih]
      simp only [List.mem_cons]
      constructor
      · exact fun h => ⟨Or.inr h.1, h.2⟩
      · rintro ⟨h1 | h1, h2⟩
        · exact absurd (h1 ▸ hc) h2
        · exact ⟨h1, h2⟩
    · rw [if_neg hc]
      simp only [List.mem_cons, ih, List.mem_append, List.mem_singleton, not_or,
        List.not_mem_nil, not_false_iff, and_true]
      constructor
      · rintro (rfl | ⟨h1, h2, h3⟩)
        · exact ⟨Or.inl rfl, hc⟩
        · exact ⟨Or.inr h1, h2⟩
      · rintro ⟨h1 | h1, h2⟩
        · exact Or.inl h1
        · by_cases hac : a = c
          · exact Or.inl hac
          · exact Or.inr ⟨h1, h2, hac⟩

/-- Closed form of `ensureCols`: append the missing names and pad every row
with that many nulls. -/
theorem ensureCols_eq : ∀ (cs : List String) (f : Frame),
    ensureCols f cs =
      ⟨f.cols ++ newCols f.cols cs,
       f.rows.map (· ++ List.replicate (newCols f.cols cs).length Cell.null)⟩ := by
  intro cs
  induction cs with
  | nil =>
    intro f
    cases f
    simp [ensureCols, newCols]
  | cons c cs ih =>
    intro f
    rw [ensureCols, newCols]
    by_cases hc : c ∈ f.cols
    · rw [if_pos hc, if_pos hc, ih]
    · rw [if_neg hc, if_neg hc, ih]
      dsimp only
      congr 1
      · simp
      · rw [List.map_map]
        apply List.map_congr_left
        intro r _
        simp [Function.comp, List.append_assoc, List.replicate_succ]

theorem idxsOf?_eq_map : ∀ (cs cols : List String), (∀ c ∈ cs, c ∈ cols) →
    idxsOf? cols cs = some (cs.map (fun c => (idxOf? c cols).getD 0)) := by
  intro cs
  induction cs with
  | nil => intro cols _; rfl
  | cons c cs ih =>
    intro cols h
    rcases idxOf?_isSome_of_mem (h c (List.mem_cons_self c cs)) with ⟨i, hi⟩
    rw [idxsOf?, hi, ih cols (fun c0 hc0 => h c0 (List.mem_cons_of_mem c hc0))]
    simp [hi]

/-- Every target column name occurs in the columns `ensureCols` produces. -/
theorem target_mem_ensured (raw : Frame) :
    ∀ c ∈ targetProgCols,
      c ∈ (raw.cols.map renameProgCol) ++ newCols (raw.cols.map renameProgCol) targetProgCols := by
  intro c hc
  by_cases hcr : c ∈ raw.cols.map renameProgCol
  · exact List.mem_append.mpr (Or.inl hcr)
  · exact List.mem_append.mpr (Or.inr (mem_newCols.mpr ⟨hc, hcr⟩))

/-- Closed form of the program transformer: one output row per input row,
each holding, for each of the five target columns in order, the cell of the
padded, renamed row at the first index of that name. -/
theorem transform_programs_asset_eq (raw : Frame) :
    transform_programs_asset raw =
      some ⟨targetProgCols,
            raw.rows.map (fun r =>
              targetProgCols.map (fun c =>
                (r ++ List.replicate
                    (newCols (raw.cols.map renameProgCol) targetProgCols).length Cell.null).getD
                  ((idxOf? c ((raw.cols.map renameProgCol) ++
                      newCols (raw.cols.map renameProgCol) targetProgCols)).getD 0)
                  Cell.null))⟩ := by
  unfold transform_programs_asset
  dsimp only
  rw [ensureCols_eq]
  unfold selectCols
  dsimp only
  rw [idxsOf?_eq_map targetProgCols _ (target_mem_ensured raw)]
  simp [List.map_map, Function.comp]

/-- Claim C9: the program transformer renames program_stream_id,
program_name and program_url to id, name and url, passes school_id and
discipline_id through unchanged, synthesizes each absent target column as an
all-null column, and outputs exactly the columns id, school_id,
discipline_id, name, url in that order, one output row per input row.
Stated for row-aligned frames whose renamed column labels are distinct —
duplicate labels do not arise in this pipeline and are outside the model. -/
theorem claim9_program_transform (raw : Frame) (hAl : raw.Aligned)
    (_hNd : (raw.cols.map renameProgCol).Nodup) :
    ∃ out, transform_programs_asset raw = some out
      ∧ out.cols = ["id", "school_id", "discipline_id", "name", "url"]
      ∧ out.rows.length = raw.rows.length
      ∧ (∀ c ∈ targetProgCols,
           (c ∈ raw.cols.map renameProgCol →
              colValues out c = colValues ⟨raw.cols.map renameProgCol, raw.rows⟩ c)
         ∧ (c ∉ raw.cols.map renameProgCol →
              colValues out c = some (List.replicate raw.rows.length Cell.null))) := by
  refine ⟨_, transform_programs_asset_eq raw, rfl, by simp, ?_⟩
  intro c hc
  obtain ⟨j, hj⟩ := idxOf?_isSome_of_mem hc
  have hcv : colValues
      ⟨targetProgCols,
       raw.rows.map (fun r => targetProgCols.map (fun c0 =>
         (r ++ List.replicate
             (newCols (raw.cols.map renameProgCol) targetProgCols).length Cell.null).getD
           ((idxOf? c0 ((raw.cols.map renameProgCol) ++
               newCols (raw.cols.map renameProgCol) targetProgCols)).getD 0) Cell.null))⟩ c
      = some (raw.rows.map (fun r =>
          (r ++ List.replicate
              (newCols (raw.cols.map renameProgCol) targetProgCols).length Cell.null).getD
            ((idxOf? c ((raw.cols.map renameProgCol) ++
                newCols (raw.cols.map renameProgCol) targetProgCols)).getD 0) Cell.null)) := by
    unfold colValues
    dsimp only
    rw [hj]
    simp only [Option.map_some', Option.some.injEq, List.map_map]
    apply List.map_congr_left
    intro r _
    exact getD_map_idxOf? _ _ c targetProgCols j hj
  constructor
  · intro hcr
    obtain ⟨i, hi⟩ := idxOf?_isSome_of_mem hcr
    have hg : idxOf? c ((raw.cols.map renameProgCol) ++
        newCols (raw.cols.map renameProgCol) targetProgCols) = some i :=
      (idxOf?_append_of_mem _ hcr).trans hi
    rw [hcv]
    simp only [hg, Option.getD_some]
    unfold colValues
    dsimp only
    rw [hi]
    simp only [Option.map_some', Option.some.injEq]
    apply List.map_congr_left
    intro r _
    exact getD_append_replicate_null r _ i
  · intro hcr
    have hcn : c ∈ newCols (raw.cols.map renameProgCol) targetProgCols :=
      mem_newCols.mpr ⟨hc, hcr⟩
    obtain ⟨j2, hj2⟩ := idxOf?_isSome_of_mem hcn
    have hg := idxOf?_append_right hj2 (raw.cols.map renameProgCol) hcr
    rw [hcv]
    simp only [hg, Option.getD_some, Option.some.injEq]
    rw [← map_const_eq_replicate raw.rows Cell.null]
    apply List.map_congr_left
    intro r hr
    have hrlen : r.length = (raw.cols.map renameProgCol).length := by
      rw [List.length_map]
      exact hAl r hr
    rw [List.getD_append_right _ _ _ _ (by omega), getD_replicate_null]

def c9Raw : Frame :=
  ⟨["program_stream_id", "school_id", "program_name"],
   [[Cell.int 10, Cell.int 3, Cell.str "Prog A"],
    [Cell.int 11, Cell.null, Cell.str "Prog B"]]⟩

theorem claim9_program_transform_witness :
    ∃ out, transform_programs_asset c9Raw = some out
      ∧ out.cols = ["id", "school_id", "discipline_id", "name", "url"]
      ∧ out.rows.length = c9Raw.rows.length
      ∧ (∀ c ∈ targetProgCols,
           (c ∈ c9Raw.cols.map renameProgCol →
              colValues out c = colValues ⟨c9Raw.cols.map renameProgCol, c9Raw.rows⟩ c)
         ∧ (c ∉ c9Raw.cols.map renameProgCol →
              colValues out c = some (List.replicate c9Raw.rows.length Cell.null))) :=
  claim9_program_transform c9Raw (by unfold Frame.Aligned; decide) (by decide)

end Carms
